import Mathlib

/-!
Verification of the scirpy clonotype-distance engine specification.

The development shallowly embeds three parts of the repository:

* the clonotype distance engine (`sequence_dist`, `ClonotypeNeighbors`),
  for which only the test suite `scirpy/tests/test_ir_dist.py` is present
  in the source tree — the engine itself is modelled from the spec and
  validated against the concrete expected matrices of the tests;
* `scirpy/tl/_diversity.py` (`_shannon_entropy`, `_dxx`, `alpha_diversity`);
* `sctcrpy/_tools/_clip_and_count.py` (`clip_and_count`).

Machine floats are modelled by `ℝ` (for log-based formulas) and by `ℚ`
(for the purely rational count/fraction arithmetic); numpy integer
arithmetic is modelled by `ℕ`.
-/

namespace Scirpy

/-- The missing-value sentinel: absent chain sequences are rendered as the
text "nan" in the clonotype tables. -/
def nan : String := "nan"

/-! ### Generic list helpers (first-occurrence deduplication, indexing) -/

/-- Auxiliary dedup: keep elements not yet seen, in order of first
occurrence.  Models `pandas`/`numpy` unique-with-original-order used by the
orchestrator and the clonotype builder. -/
def firstUniqAux {α} [DecidableEq α] : List α → List α → List α
  | _, [] => []
  | seen, x :: xs =>
    if x ∈ seen then firstUniqAux seen xs
    else x :: firstUniqAux (x :: seen) xs

/-- First-occurrence deduplication of a list. -/
def firstUniq {α} [DecidableEq α] (l : List α) : List α :=
  firstUniqAux [] l

/-- Index of the first occurrence of `a` in `l` (models the positional
lookup into the deduplicated unique-sequence list). -/
def idxOf {α} [DecidableEq α] (a : α) : List α → ℕ
  | [] => 0
  | x :: xs => if x = a then 0 else idxOf a xs + 1

/-! ### Python error taxonomy -/

/-- Error values a modelled scirpy routine can raise. -/
inductive PErr where
  | valueError (msg : String)
  | assertionError
  | indexError
  deriving DecidableEq

/-- Does an `Except` result hold a Python `ValueError`? -/
def isValueError {α} : Except PErr α → Bool
  | .error (.valueError _) => true
  | _ => false

/-- Does an `Except` result hold a success value? -/
def isOkE {ε α} : Except ε α → Bool
  | .ok _ => true
  | .error _ => false

/-! ### `scirpy/tl/_diversity.py` -/

open Classical in
/-- `_shannon_entropy` from `scirpy/tl/_diversity.py`: normalized Shannon
entropy of a counts vector.  `freqs = counts / sum(counts)`; the
`np.testing.assert_almost_equal(np.sum(freqs), 1)` assertion is modelled
exactly (an exact equality test over `ℝ`; with natural-number counts the
real sum is `1` precisely when the counts are not all zero, matching the
numpy behaviour where a zero total yields `nan` frequencies and a failing
assertion).  A length-one vector returns `0` explicitly; otherwise the
normalized entropy `-Σ (f · log f / log n)` is returned. -/
noncomputable def shannon_entropy (counts : List ℕ) : Except PErr ℝ :=
  let freqs : List ℝ := counts.map (fun c => (c : ℝ) / ((counts.sum : ℕ) : ℝ))
  if freqs.sum = 1 then
    if counts.length = 1 then .ok 0
    else .ok (-(freqs.map (fun f => f * Real.log f / Real.log (freqs.length : ℝ))).sum)
  else .error .assertionError

/-- The `while prop < (percentage / 100): prop += freqs[i]; i += 1` loop of
`_dxx`, recursing over the (descending-sorted) frequency list.  Running off
the end of the list is numpy's `IndexError`. -/
def dxxCount (target : ℚ) : List ℚ → ℚ → ℕ → Except PErr ℕ
  | [], prop, i => if prop < target then .error .indexError else .ok i
  | f :: rest, prop, i =>
    if prop < target then dxxCount target rest (prop + f) (i + 1)
    else .ok i

/-- `_dxx` from `scirpy/tl/_diversity.py`: the D50/DXX diversity index.
Frequencies are exact rationals `counts / sum(counts)`; the
`assert_almost_equal` guard is the exact test `Σ freqs = 1`; the
frequencies are sorted in descending order (`np.sort(freqs)[::-1]`), the
while-loop accumulates the largest frequencies until the target percentage
is reached, and `i / len(freqs) * 100` is returned. -/
def dxx (counts : List ℕ) (percentage : ℤ) : Except PErr ℚ :=
  let total : ℚ := ((counts.sum : ℕ) : ℚ)
  let freqs : List ℚ := counts.map (fun c => (c : ℚ) / total)
  if freqs.sum = 1 then
    let sorted := freqs.insertionSort (· ≥ ·)
    match dxxCount ((percentage : ℚ) / 100) sorted 0 0 with
    | .ok i => .ok ((i : ℚ) / (freqs.length : ℚ) * 100)
    | .error e => .error e
  else .error .assertionError

/-- The metric selector of `alpha_diversity`: a metric name or a custom
function over count vectors.  `skbio` metrics are treated opaquely via the
external evaluator passed to `alpha_diversity`. -/
inductive DivMetric where
  | normalized_shannon_entropy
  | D50
  | DXX
  | skbio (name : String)
  | custom (f : List ℕ → ℝ)

/-- One iteration of the metric dispatch of `alpha_diversity`
(`scirpy/tl/_diversity.py`, lines 239–267): pick the diversity value for
one group's counts vector, or raise.  `DXX` without the `percentage`
keyword argument raises `ValueError`. -/
noncomputable def dispatchMetric (skbioEval : String → List ℕ → Except PErr ℝ)
    (metric : DivMetric) (percentage : Option ℤ) (counts : List ℕ) :
    Except PErr ℝ :=
  match metric with
  | .normalized_shannon_entropy => shannon_entropy counts
  | .D50 =>
    match dxx counts 50 with
    | .ok q => .ok ((q : ℝ))
    | .error e => .error e
  | .DXX =>
    match percentage with
    | some p =>
      match dxx counts p with
      | .ok q => .ok ((q : ℝ))
      | .error e => .error e
    | none => .error (.valueError "DXX requires the `percentage` keyword argument, which can range from 0 to 100.")
  | .skbio name => skbioEval name counts
  | .custom f => .ok (f counts)

/-- The group loop of `alpha_diversity`: the diversity value is computed
per group (in sorted group order, abstracted here as the given list
order); the first raised error aborts the whole call. -/
noncomputable def alphaDiversityGo (skbioEval : String → List ℕ → Except PErr ℝ)
    (metric : DivMetric) (percentage : Option ℤ) :
    List (String × List ℕ) → Except PErr (List (String × ℝ))
  | [] => .ok []
  | (k, counts) :: rest =>
    match dispatchMetric skbioEval metric percentage counts with
    | .error e => .error e
    | .ok v =>
      match alphaDiversityGo skbioEval metric percentage rest with
      | .error e => .error e
      | .ok tail => .ok ((k, v) :: tail)

/-- `alpha_diversity` from `scirpy/tl/_diversity.py`, abstracted over the
already-grouped per-group clonotype count vectors (the pandas
groupby/NaN-filter plumbing).  Returns the group-to-diversity mapping or
the first raised error. -/
noncomputable def alpha_diversity (skbioEval : String → List ℕ → Except PErr ℝ)
    (groups : List (String × List ℕ)) (metric : DivMetric)
    (percentage : Option ℤ) : Except PErr (List (String × ℝ)) :=
  alphaDiversityGo skbioEval metric percentage groups

/-- A trivial external skbio evaluator (used for concrete instances). -/
noncomputable def skbZero : String → List ℕ → Except PErr ℝ :=
  fun _ _ => .ok 0

/-! ### `sctcrpy/_tools/_clip_and_count.py` -/

/-- `clip_and_count` from `sctcrpy/_tools/_clip_and_count.py`, abstracted
over the observation table: each row is a `(groupby value, target value)`
pair, a `none` target being NaN.  Rows with NaN target are dropped;
clonotype abundances are the sizes of the `(group, target)` groups; counts
at least `clip_at` are clipped to `clip_at`; for each group (in order of
first appearance, the order `pandas.unique` yields) and each
`n ∈ 1..clip_at` the number of clonotypes of clipped abundance `n` is
reported, divided by the group's clonotype total when `fraction` is set.
Counts are exact rationals (numpy integer division yields floats; the
fractions here are exact).

`tcr_obs`: the observation table with NaN targets dropped. -/
def tcrObs (rows : List (String × Option String)) : List (String × String) :=
  rows.filterMap (fun r => r.2.map (fun t => (r.1, t)))

/-- `clonotype_counts`: one row per observed `(group, target)` pair, with
the group value and the clipped clonotype abundance
(`counts >= clip_at` are set to `clip_at`). -/
def clonotypeCounts (rows : List (String × Option String)) (clip_at : ℕ) :
    List (String × ℕ) :=
  (firstUniq (tcrObs rows)).map (fun k =>
    (k.1,
      if clip_at ≤ (tcrObs rows).countP (fun r => r = k) then clip_at
      else (tcrObs rows).countP (fun r => r = k)))

def clip_and_count (rows : List (String × Option String)) (clip_at : ℕ)
    (fraction : Bool) : List (String × List (String × ℚ)) :=
  (firstUniq ((clonotypeCounts rows clip_at).map (·.1))).map (fun g =>
    (g, (List.range' 1 clip_at).map (fun n =>
      ((if n = clip_at then ">= " ++ toString n else toString n : String),
        if fraction then
          (((clonotypeCounts rows clip_at).countP
              (fun r => r.1 = g ∧ r.2 = n) : ℕ) : ℚ)
            / (((clonotypeCounts rows clip_at).countP
                (fun r => r.1 = g) : ℕ) : ℚ)
        else (((clonotypeCounts rows clip_at).countP
            (fun r => r.1 = g ∧ r.2 = n) : ℕ) : ℚ)))))

/-! ### Distance calculators (`scirpy/ir_dist/metrics.py`)

Modelled from the spec: the `DistanceCalculator` variants themselves are
not under `src/` (only `scirpy/tests/test_ir_dist.py` is); the definitions
below follow spec §3/§4.1 and are validated against the concrete matrices
expected by `test_sequence_dist`. -/

/-- Textbook Levenshtein recursion with an explicit fuel argument
(`fuel ≥ |xs| + |ys|` suffices: every recursive call shortens the combined
input, so the `0` fuel case is unreachable from `levenshtein`). -/
def levFuel : ℕ → List Char → List Char → ℕ
  | _, [], ys => ys.length
  | _, x :: xs, [] => (x :: xs).length
  | 0, _, _ => 0
  | fuel + 1, x :: xs, y :: ys =>
    if x = y then levFuel fuel xs ys
    else 1 + min (levFuel fuel xs (y :: ys))
               (min (levFuel fuel (x :: xs) ys) (levFuel fuel xs ys))

/-- Edit distance (insertions/deletions/substitutions, unit cost) between
two sequences. -/
def levenshtein (a b : String) : ℕ :=
  levFuel (a.toList.length + b.toList.length) a.toList b.toList

/-- Modelled from the spec: the metric selector of `sequence_dist` — a
closed set of named variants plus a custom variant carrying the
user-supplied calculator's encoded pairwise function (spec §9 "Dynamic
metric dispatch").  The alignment variant is subsumed by `custom`. -/
inductive Metric where
  | identity
  | levenshtein
  | custom (d : String → String → ℕ)

/-- Modelled from the spec: one entry of the encoded distance matrix a
`DistanceCalculator` produces (spec §3, §4.1): stored value = true
distance + 1, and `0` means "no edge" (distance exceeds the cutoff, or
either sequence is the sentinel).  Identity keeps only character-equal
pairs regardless of cutoff; a custom calculator applies its own rule. -/
def metricDist : Metric → ℕ → String → String → ℕ
  | .identity, _, a, b =>
    if a = nan ∨ b = nan then 0 else if a = b then 1 else 0
  | .levenshtein, cutoff, a, b =>
    if a = nan ∨ b = nan then 0
    else if levenshtein a b ≤ cutoff then levenshtein a b + 1 else 0
  | .custom d, _, a, b =>
    if a = nan ∨ b = nan then 0 else d a b

/-! ### Chunked / parallel block assembly (spec §5)

Modelled from the spec: both the sequence-distance orchestrator and the
clonotype combination engine partition their output rows into contiguous
blocks of `chunksize` rows, hand blocks to workers, and concatenate the
completed blocks in original block order (never in arrival order). -/

/-- Contiguous blocks of (at least) `cs` rows, with an explicit fuel
argument (`fuel ≥ |l|` suffices since every step consumes at least one
element).  A chunk size below 1 is clamped to 1. -/
def chunkFuel {α} : ℕ → ℕ → List α → List (List α)
  | _, _, [] => []
  | 0, _, _ => []
  | fuel + 1, cs, x :: xs =>
    ((x :: xs).take (max 1 cs)) :: chunkFuel fuel cs ((x :: xs).drop (max 1 cs))

/-- Partition a row list into contiguous blocks of `cs` rows. -/
def chunkList {α} (cs : ℕ) (l : List α) : List (List α) :=
  chunkFuel l.length cs l

/-- Modelled from the spec (§5): chunked, possibly parallel evaluation of
`rows.map f`.  `perm` is the order in which worker results arrive (any
processing order covering every block index); each completed block is
tagged with its block index and the final output concatenates blocks in
block-index order, not arrival order. -/
def parAssemble {α β} (cs : ℕ) (perm : List ℕ) (rows : List α)
    (f : α → β) : List β :=
  ((List.range (chunkList cs rows).length).map (fun i =>
    ((perm.map (fun b => (b, ((chunkList cs rows).getD b []).map f))).lookup
      i).getD [])).flatten

/-! ### `sequence_dist` (`scirpy/ir_dist/__init__.py`)

Modelled from the spec (§4.2): deduplicate each collection preserving
first-occurrence order, compute the encoded distance matrix over the
unique sequences, then broadcast back to original order via index
lookup. -/

/-- The encoded distance matrix over the deduplicated unique sequences. -/
def uniqueMat (m : Metric) (cutoff : ℕ) (seqs seqs2 : List String) :
    List (List ℕ) :=
  (firstUniq seqs).map (fun a =>
    (firstUniq seqs2).map (fun b => metricDist m cutoff a b))

/-- One output row of `sequence_dist`: the unique-matrix row of `a`,
broadcast to the original column order of `seqs2` by index lookup. -/
def sequence_dist_row (m : Metric) (cutoff : ℕ) (seqs seqs2 : List String)
    (a : String) : List ℕ :=
  seqs2.map (fun b =>
    ((uniqueMat m cutoff seqs seqs2).getD (idxOf a (firstUniq seqs)) []).getD
      (idxOf b (firstUniq seqs2)) 0)

/-- `sequence_dist`: the full encoded distance matrix, one row/column per
original (non-deduplicated) input sequence. -/
def sequence_dist (m : Metric) (cutoff : ℕ) (seqs seqs2 : List String) :
    List (List ℕ) :=
  seqs.map (sequence_dist_row m cutoff seqs seqs2)

/-- `sequence_dist` evaluated by chunked blocks of rows on workers whose
results arrive in order `perm` (spec §5). -/
def sequence_dist_par (m : Metric) (cutoff : ℕ) (seqs seqs2 : List String)
    (cs : ℕ) (perm : List ℕ) : List (List ℕ) :=
  parAssemble cs perm seqs (sequence_dist_row m cutoff seqs seqs2)

/-! ### `ClonotypeNeighbors` (`scirpy/ir_dist/_clonotype_neighbors.py`)

Modelled from the spec (§4.3, §4.4) and validated against the expected
matrices of `test_compute_distances` / `test_compute_distances_2` /
`test_compute_distances_second_anndata`. -/

/-- A deduplicated clonotype row: the four chain slots
(arm VJ/VDJ × priority primary/secondary); unset slots hold `nan`. -/
structure CTRow where
  vj1 : String
  vj2 : String
  vdj1 : String
  vdj2 : String
  deriving DecidableEq

/-- The all-missing clonotype row. -/
def nanRow : CTRow := ⟨nan, nan, nan, nan⟩

/-- Is every slot of the row the missing sentinel? -/
def isNanRow (r : CTRow) : Prop :=
  r.vj1 = nan ∧ r.vj2 = nan ∧ r.vdj1 = nan ∧ r.vdj2 = nan

instance (r : CTRow) : Decidable (isNanRow r) := by
  unfold isNanRow; infer_instance

/-- `dual_ir` matching policy. -/
inductive DualIr where
  | primary_only
  | any
  | all
  deriving DecidableEq

/-- `receptor_arms` matching policy. -/
inductive ReceptorArms where
  | VJ
  | VDJ
  | all
  | any
  deriving DecidableEq

/-- Encoded per-chain distance lookup: the per-locus encoded distance
matrix, keyed by sequence (duplicate sequences share a deduplicated index,
so the lookup depends only on the sequence values); the sentinel has no
edge to anything, itself included (spec §3). -/
def encLookup (d : String → String → ℕ) (a b : String) : ℕ :=
  if a = nan ∨ b = nan then 0 else d a b

/-- `dual_ir=any`: the slot-priority pairings that exist on both sides
(primary–primary, primary–secondary, secondary–primary,
secondary–secondary), excluding any pairing where either side's sequence
is the missing sentinel (spec §4.4). -/
def armPairingsAny (p1 s1 p2 s2 : String) : List (String × String) :=
  [(p1, p2), (p1, s2), (s1, p2), (s1, s2)].filter
    (fun pr => pr.1 ≠ nan ∧ pr.2 ≠ nan)

/-- `dual_ir=any` pairings that are also connected (nonzero encoded
distance). -/
def connPairingsAny (d : String → String → ℕ) (p1 s1 p2 s2 : String) :
    List (String × String) :=
  (armPairingsAny p1 s1 p2 s2).filter (fun pr => encLookup d pr.1 pr.2 ≠ 0)

/-- Minimum of a list of values, with `0` (the "unconnected" sparse fill)
for the empty list. -/
def minOr0 : List ℕ → ℕ
  | [] => 0
  | v :: vs => vs.foldl min v

/-- `dual_ir=any` per-arm distance: the minimum encoded distance among
connected pairings; `0` (unconnected) if no valid connected pairing
exists. -/
def armDistAny (d : String → String → ℕ) (p1 s1 p2 s2 : String) : ℕ :=
  minOr0 (((armPairingsAny p1 s1 p2 s2).map
    (fun pr => encLookup d pr.1 pr.2)).filter (· ≠ 0))

/-- Outcome of checking one required slot pairing under `dual_ir=all`:
skipped (absent on both sides), blocking (present on exactly one side, or
present on both but unconnected), or connected with an encoded value. -/
inductive SlotCheck where
  | skip
  | block
  | conn (v : ℕ)
  deriving DecidableEq

/-- Check one priority slot under `dual_ir=all` (primary-to-primary and
secondary-to-secondary only, never cross-paired). -/
def checkSlot (d : String → String → ℕ) (x y : String) : SlotCheck :=
  if x = nan ∧ y = nan then .skip
  else if x = nan ∨ y = nan then .block
  else if encLookup d x y = 0 then .block
  else .conn (encLookup d x y)

/-- `dual_ir=all` jointly-present slot pairings (primary-to-primary and
secondary-to-secondary, when present on both sides). -/
def armPairingsAll (p1 s1 p2 s2 : String) : List (String × String) :=
  (if p1 ≠ nan ∧ p2 ≠ nan then [(p1, p2)] else []) ++
  (if s1 ≠ nan ∧ s2 ≠ nan then [(s1, s2)] else [])

/-- `dual_ir=all` per-arm distance: every slot pairing present on both
sides must be connected; absent-on-both slots are skipped; the arm value
is the maximum encoded distance among the checked pairings; if a required
pairing blocks, or nothing was checked, the arm is unconnected (`0`). -/
def armDistAll (d : String → String → ℕ) (p1 s1 p2 s2 : String) : ℕ :=
  match checkSlot d p1 p2, checkSlot d s1 s2 with
  | .block, _ => 0
  | _, .block => 0
  | .skip, .skip => 0
  | .conn v, .skip => v
  | .skip, .conn v => v
  | .conn v, .conn w => max v w

/-- Per-arm chain-pair combination under a `dual_ir` policy:
`primary_only` takes the encoded distance between the two primary-slot
sequences directly. -/
def armDist : DualIr → (String → String → ℕ) → String → String → String → String → ℕ
  | .primary_only, d, p1, _, p2, _ => encLookup d p1 p2
  | .any, d, p1, s1, p2, s2 => armDistAny d p1 s1 p2 s2
  | .all, d, p1, s1, p2, s2 => armDistAll d p1 s1 p2 s2

/-- Cross-arm combination (spec §4.4): `all` needs both arms connected and
takes the max; `any` needs at least one and takes the min over connected
arms; `VJ`/`VDJ` use that arm's result directly. -/
def crossArm : ReceptorArms → ℕ → ℕ → ℕ
  | .VJ, vj, _ => vj
  | .VDJ, _, vdj => vdj
  | .all, vj, vdj => if vj = 0 ∨ vdj = 0 then 0 else max vj vdj
  | .any, vj, vdj => if vj = 0 then vdj else if vdj = 0 then vj else min vj vdj

/-- Combined clonotype-pair distance for one pair of clonotype rows. -/
def ctDist (ra : ReceptorArms) (di : DualIr)
    (dvj dvdj : String → String → ℕ) (r1 r2 : CTRow) : ℕ :=
  crossArm ra (armDist di dvj r1.vj1 r1.vj2 r2.vj1 r2.vj2)
    (armDist di dvdj r1.vdj1 r1.vdj2 r2.vdj1 r2.vdj2)

/-- One output row of `compute_distances`. -/
def compute_distances_row (ra : ReceptorArms) (di : DualIr)
    (dvj dvdj : String → String → ℕ) (ct2 : List CTRow) (r1 : CTRow) :
    List ℕ :=
  ct2.map (fun r2 => ctDist ra di dvj dvdj r1 r2)

/-- `ClonotypeNeighbors.compute_distances()`: the clonotype×clonotype
sparse distance matrix (rows = `clonotypes`, columns = `clonotypes2`),
entries as dense encoded values with `0` = not connected. -/
def compute_distances (ra : ReceptorArms) (di : DualIr)
    (dvj dvdj : String → String → ℕ) (ct1 ct2 : List CTRow) :
    List (List ℕ) :=
  ct1.map (compute_distances_row ra di dvj dvdj ct2)

/-- `compute_distances` evaluated by chunked blocks of rows on workers
whose results arrive in order `perm` (spec §5). -/
def compute_distances_par (ra : ReceptorArms) (di : DualIr)
    (dvj dvdj : String → String → ℕ) (ct1 ct2 : List CTRow)
    (cs : ℕ) (perm : List ℕ) : List (List ℕ) :=
  parAssemble cs perm ct1 (compute_distances_row ra di dvj dvdj ct2)

/-! ### Clonotype table construction (spec §4.3) -/

/-- One cell of a dataset: whether it bears any receptor chain
(`has_ir`) and its four chain-slot sequences (`none` = NaN). -/
structure Cell where
  has_ir : Bool
  vj1 : Option String
  vj2 : Option String
  vdj1 : Option String
  vdj2 : Option String
  deriving DecidableEq

/-- Does the configuration use the VJ arm? -/
def useVJ : ReceptorArms → Bool
  | .VJ => true
  | .VDJ => false
  | .all => true
  | .any => true

/-- Does the configuration use the VDJ arm? -/
def useVDJ : ReceptorArms → Bool
  | .VJ => false
  | .VDJ => true
  | .all => true
  | .any => true

/-- The chain-slot row of one cell, with NaN slots replaced by the
sentinel and slots outside the requested `receptor_arms`/`dual_ir`
configuration absent (held at the sentinel, since the clonotype table has
no column for them). -/
def cellRow (ra : ReceptorArms) (di : DualIr) (c : Cell) : CTRow :=
  { vj1 := if useVJ ra then c.vj1.getD nan else nan
    vj2 := if useVJ ra ∧ di ≠ .primary_only then c.vj2.getD nan else nan
    vdj1 := if useVDJ ra then c.vdj1.getD nan else nan
    vdj2 := if useVDJ ra ∧ di ≠ .primary_only then c.vdj2.getD nan else nan }

/-- Modelled from the spec (§4.3): the `ClonotypeNeighbors` constructor's
per-dataset clonotype table — cells without any receptor chain are
dropped; if none remain the construction fails with `ValueError`;
otherwise cells are grouped by their tuple of slot sequences, one row per
unique tuple in order of first appearance. -/
def buildClonotypes (ra : ReceptorArms) (di : DualIr) (ds : List Cell) :
    Except PErr (List CTRow) :=
  let withIr := ds.filter (fun c => c.has_ir)
  if withIr = [] then
    .error (.valueError "No cells with IR information found.")
  else .ok (firstUniq (withIr.map (cellRow ra di)))

/-- `ClonotypeNeighbors(...)` construction over two datasets: builds both
clonotype tables, failing if either dataset has no receptor-bearing
cell. -/
def mkClonotypeNeighbors (ra : ReceptorArms) (di : DualIr)
    (ds1 ds2 : List Cell) : Except PErr (List CTRow × List CTRow) :=
  match buildClonotypes ra di ds1 with
  | .error e => .error e
  | .ok ct1 =>
    match buildClonotypes ra di ds2 with
    | .error e => .error e
    | .ok ct2 => .ok (ct1, ct2)

/-! ### Concrete fixtures from `scirpy/tests/test_ir_dist.py` -/

/-- The hard-coded encoded distance matrix of the test suite's
`MockDistanceCalculator`, as a sequence-keyed lookup over
`["AAA", "AHA", "KK", "KKK", "KKY", "LLL"]`. -/
def dMock (a b : String) : ℕ :=
  let idx (s : String) : ℕ :=
    if s = "AAA" then 0 else if s = "AHA" then 1 else if s = "KK" then 2
    else if s = "KKK" then 3 else if s = "KKY" then 4
    else if s = "LLL" then 5 else 6
  let row : ℕ → List ℕ
    | 0 => [1, 4, 0, 0, 0, 0]
    | 1 => [4, 1, 0, 0, 0, 0]
    | 2 => [0, 0, 1, 10, 10, 0]
    | 3 => [0, 0, 10, 1, 5, 0]
    | 4 => [0, 0, 10, 5, 1, 0]
    | 5 => [0, 0, 0, 0, 0, 1]
    | _ => []
  (row (idx a)).getD (idx b) 0

/-- The encoded identity-metric pairwise function (self-distance `1`,
everything else unconnected). -/
def dId (a b : String) : ℕ := if a = b then 1 else 0

/-- A VJ-only clonotype row (both VDJ slots unset). -/
def rVJ (p s : String) : CTRow := ⟨p, s, nan, nan⟩

/-- A clonotype row with primary VJ/VDJ slots (secondaries unset). -/
def rPrim (p q : String) : CTRow := ⟨p, nan, q, nan⟩

/-- The clonotype table of the `receptor_arms=VJ, dual_ir=primary_only`
test case (`IR_VJ_1_junction_aa = [AAA, AHA, nan]`). -/
def ctPrim : List CTRow := [rVJ "AAA" nan, rVJ "AHA" nan, rVJ nan nan]

/-- The clonotype table of the dual-chain VJ test cases
(`IR_VJ_1 = [AAA, AHA, nan, AAA, AAA]`,
`IR_VJ_2 = [AHA, nan, nan, AAA, nan]`). -/
def ctDual : List CTRow :=
  [rVJ "AAA" "AHA", rVJ "AHA" nan, rVJ nan nan, rVJ "AAA" "AAA",
   rVJ "AAA" nan]

/-- The clonotype table of the two-arm primary-only test cases
(`IR_VJ_1 = [AAA, AHA, nan, AAA]`, `IR_VDJ_1 = [KKY, KK, nan, LLL]`). -/
def ctArm : List CTRow :=
  [rPrim "AAA" "KKY", rPrim "AHA" "KK", rPrim nan nan, rPrim "AAA" "LLL"]

/-- The clonotype table of the two-arm dual-chain test cases. -/
def ctBoth : List CTRow :=
  [⟨"AAA", "AHA", "KKY", "KKK"⟩, ⟨"AHA", nan, "KK", "KKK"⟩,
   ⟨nan, nan, nan, nan⟩, ⟨"AAA", "AAA", "LLL", "AAA"⟩,
   ⟨"AAA", nan, "LLL", nan⟩]

/-! ### Matrix entry access and transpose -/

/-- The `(i, j)` entry of a dense row-list matrix (`0`, the sparse fill
value, outside the stored area). -/
def entryAt (m : List (List ℕ)) (i j : ℕ) : ℕ :=
  (m.getD i []).getD j 0

/-- Transpose of a dense row-list matrix with `ncols` columns. -/
def transposeLL (m : List (List ℕ)) (ncols : ℕ) : List (List ℕ) :=
  (List.range ncols).map (fun j => m.map (fun row => row.getD j 0))

/-! ## Helper lemmas -/

theorem mem_firstUniqAux {α} [DecidableEq α] (a : α) :
    ∀ (l seen : List α), a ∈ firstUniqAux seen l ↔ a ∈ l ∧ a ∉ seen := by
  intro l
  induction l with
  | nil => intro seen; simp [firstUniqAux]
  | cons x xs ih =>
    intro seen
    unfold firstUniqAux
    by_cases hx : x ∈ seen
    · rw [if_pos hx, ih]
      have hxa : a = x → a ∈ seen := fun h => h.symm ▸ hx
      simp only [List.mem_cons]
      tauto
    · rw [if_neg hx]
      have hxa : a = x → a ∉ seen := fun h => h.symm ▸ hx
      simp only [List.mem_cons, ih, List.mem_cons]
      tauto

theorem mem_firstUniq {α} [DecidableEq α] {a : α} {l : List α} :
    a ∈ firstUniq l ↔ a ∈ l := by
  unfold firstUniq
  rw [mem_firstUniqAux]
  simp

theorem firstUniqAux_all_seen {α} [DecidableEq α] :
    ∀ (l seen : List α), (∀ x ∈ l, x ∈ seen) → firstUniqAux seen l = [] := by
  intro l
  induction l with
  | nil => intro seen _; rfl
  | cons x xs ih =>
    intro seen h
    unfold firstUniqAux
    rw [if_pos (h x (List.mem_cons_self x xs))]
    exact ih seen (fun y hy => h y (List.mem_cons_of_mem _ hy))

theorem firstUniq_const {α} [DecidableEq α] {l : List α} {a : α}
    (hne : l ≠ []) (hall : ∀ x ∈ l, x = a) : firstUniq l = [a] := by
  cases l with
  | nil => exact absurd rfl hne
  | cons x xs =>
    have hx : x = a := hall x (List.mem_cons_self x xs)
    subst hx
    unfold firstUniq firstUniqAux
    rw [if_neg (List.not_mem_nil x)]
    rw [firstUniqAux_all_seen]
    intro y hy
    rw [hall y (List.mem_cons_of_mem _ hy)]
    exact List.mem_cons_self _ _

theorem getD_map_idxOf {α β} [DecidableEq α] (g : α → β) (dflt : β) :
    ∀ (u : List α) (a : α), a ∈ u →
      (u.map g).getD (idxOf a u) dflt = g a := by
  intro u
  induction u with
  | nil => intro a h; cases h
  | cons x xs ih =>
    intro a h
    unfold idxOf
    by_cases hx : x = a
    · rw [if_pos hx]
      simp [hx]
    · rw [if_neg hx]
      have ha : a ∈ xs := by
        rcases List.mem_cons.1 h with h' | h'
        · exact absurd h'.symm hx
        · exact h'
      simpa using ih a ha

theorem getD_map_zero {α} (g : α → ℕ) (l : List α)
    (h : ∀ x ∈ l, g x = 0) (j : ℕ) : (l.map g).getD j 0 = 0 := by
  by_cases hj : j < l.length
  · rw [List.getD_eq_getElem _ _ (by simpa using hj), List.getElem_map]
    exact h _ (List.getElem_mem _)
  · exact List.getD_eq_default _ _ (by simpa using Nat.le_of_not_lt hj)

theorem entryAt_map_map {α β} (f : α → β → ℕ) (l1 : List α) (l2 : List β)
    (i j : ℕ) (hi : i < l1.length) (hj : j < l2.length) :
    entryAt (l1.map (fun a => l2.map (f a))) i j
      = f (l1.get ⟨i, hi⟩) (l2.get ⟨j, hj⟩) := by
  have h1 : (l1.map (fun a => l2.map (f a))).getD i []
      = l2.map (f (l1.get ⟨i, hi⟩)) := by
    rw [List.getD_eq_getElem _ _ (by simpa using hi), List.getElem_map]
    simp
  unfold entryAt
  rw [h1, List.getD_eq_getElem _ _ (by simpa using hj), List.getElem_map]
  simp

theorem chunkFuel_flatten {α} :
    ∀ (fuel cs : ℕ) (l : List α), l.length ≤ fuel →
      (chunkFuel fuel cs l).flatten = l := by
  intro fuel
  induction fuel with
  | zero =>
    intro cs l h
    cases l with
    | nil => rfl
    | cons x xs => simp at h
  | succ f ih =>
    intro cs l h
    cases l with
    | nil => rfl
    | cons x xs =>
      show (((x :: xs).take (max 1 cs)) :: chunkFuel f cs ((x :: xs).drop (max 1 cs))).flatten = x :: xs
      have hd : ((x :: xs).drop (max 1 cs)).length = (x :: xs).length - max 1 cs :=
        List.length_drop _ _
      have h1 : 1 ≤ max 1 cs := le_max_left _ _
      have hlen : (x :: xs).length = xs.length + 1 := rfl
      rw [List.flatten_cons, ih cs _ (by omega)]
      exact List.take_append_drop _ _

theorem chunkList_flatten {α} (cs : ℕ) (l : List α) :
    (chunkList cs l).flatten = l :=
  chunkFuel_flatten l.length cs l le_rfl

theorem lookup_tag {β} (g : ℕ → β) :
    ∀ (perm : List ℕ) (i : ℕ), i ∈ perm →
      (perm.map (fun b => (b, g b))).lookup i = some (g i) := by
  intro perm
  induction perm with
  | nil => intro i h; cases h
  | cons j rest ih =>
    intro i h
    by_cases hij : i = j
    · subst hij
      simp [List.lookup]
    · have hne : (i == j) = false := by simp [hij]
      simp only [List.map_cons, List.lookup, hne]
      apply ih
      rcases List.mem_cons.1 h with h' | h'
      · exact absurd h' hij
      · exact h'

theorem range_map_getD {α β} (g : α → β) (dflt : α) (l : List α) :
    (List.range l.length).map (fun i => g (l.getD i dflt)) = l.map g := by
  apply List.ext_getElem
  · simp
  · intro n h1 h2
    simp only [List.getElem_map, List.getElem_range]
    rw [List.getD_eq_getElem _ _ (by simpa using h2)]

theorem parAssemble_eq {α β} (cs : ℕ) (perm : List ℕ) (rows : List α)
    (f : α → β) (hcov : ∀ i, i < (chunkList cs rows).length → i ∈ perm) :
    parAssemble cs perm rows f = rows.map f := by
  unfold parAssemble
  have h2 : (List.range (chunkList cs rows).length).map
      (fun i => (((perm.map (fun b =>
          (b, ((chunkList cs rows).getD b []).map f))).lookup i).getD []))
      = (List.range (chunkList cs rows).length).map
        (fun i => ((chunkList cs rows).getD i []).map f) := by
    apply List.map_congr_left
    intro i hi
    rw [lookup_tag (fun b => ((chunkList cs rows).getD b []).map f) perm i
      (hcov i (List.mem_range.1 hi))]
    rfl
  rw [h2, range_map_getD (fun blk => blk.map f) [] (chunkList cs rows)]
  rw [← List.map_flatten, chunkList_flatten]

/-- The deduplicate-then-broadcast pipeline of `sequence_dist` computes,
entry for entry, the direct pairwise encoded metric (deduplication exists
purely for compute efficiency, spec §3). -/
theorem sequence_dist_row_eq (m : Metric) (c : ℕ) (seqs seqs2 : List String)
    {a : String} (ha : a ∈ seqs) :
    sequence_dist_row m c seqs seqs2 a = seqs2.map (metricDist m c a) := by
  unfold sequence_dist_row uniqueMat
  apply List.map_congr_left
  intro b hb
  have ha' : a ∈ firstUniq seqs := mem_firstUniq.2 ha
  have hb' : b ∈ firstUniq seqs2 := mem_firstUniq.2 hb
  rw [getD_map_idxOf (fun a =>
    (firstUniq seqs2).map (fun b => metricDist m c a b)) [] _ a ha']
  rw [getD_map_idxOf (fun b => metricDist m c a b) 0 _ b hb']

theorem sequence_dist_eq (m : Metric) (c : ℕ) (s1 s2 : List String) :
    sequence_dist m c s1 s2 = s1.map (fun a => s2.map (metricDist m c a)) :=
  List.map_congr_left (fun _ ha => sequence_dist_row_eq m c s1 s2 ha)

/-! ### Minimum/maximum bookkeeping for the combination policies -/

theorem foldl_min_mem : ∀ (vs : List ℕ) (v : ℕ), vs.foldl min v ∈ v :: vs := by
  intro vs
  induction vs with
  | nil => intro v; simp
  | cons w ws ih =>
    intro v
    simp only [List.foldl_cons]
    rcases List.mem_cons.1 (ih (min v w)) with h | h
    · rcases min_choice v w with hm | hm
      · exact List.mem_cons.2 (Or.inl (h.trans hm))
      · exact List.mem_cons.2 (Or.inr (List.mem_cons.2 (Or.inl (h.trans hm))))
    · exact List.mem_cons.2 (Or.inr (List.mem_cons.2 (Or.inr h)))

theorem foldl_min_le : ∀ (vs : List ℕ) (v x : ℕ), x ∈ v :: vs → vs.foldl min v ≤ x := by
  intro vs
  induction vs with
  | nil =>
    intro v x h
    rcases List.mem_cons.1 h with hx | h
    · rw [hx]
      exact le_rfl
    · cases h
  | cons w ws ih =>
    intro v x h
    simp only [List.foldl_cons]
    rcases List.mem_cons.1 h with hx | h'
    · rw [hx]
      exact le_trans (ih (min v w) _ (List.mem_cons_self _ _)) (min_le_left _ _)
    · rcases List.mem_cons.1 h' with hx | h''
      · rw [hx]
        exact le_trans (ih (min v w) _ (List.mem_cons_self _ _)) (min_le_right _ _)
      · exact ih (min v w) x (List.mem_cons_of_mem _ h'')

theorem minOr0_mem {l : List ℕ} (h : l ≠ []) : minOr0 l ∈ l := by
  cases l with
  | nil => exact absurd rfl h
  | cons v vs => exact foldl_min_mem vs v

theorem minOr0_le {l : List ℕ} {x : ℕ} (h : x ∈ l) : minOr0 l ≤ x := by
  cases l with
  | nil => cases h
  | cons v vs => exact foldl_min_le vs v x h

theorem minOr0_nil : minOr0 [] = 0 := rfl

/-! ### `checkSlot` inversion -/

theorem checkSlot_skip {d : String → String → ℕ} {x y : String}
    (h : checkSlot d x y = .skip) : x = nan ∧ y = nan := by
  unfold checkSlot at h
  split_ifs at h with h1 h2 h3
  exact h1

theorem checkSlot_conn {d : String → String → ℕ} {x y : String} {v : ℕ}
    (h : checkSlot d x y = .conn v) :
    x ≠ nan ∧ y ≠ nan ∧ encLookup d x y = v ∧ v ≠ 0 := by
  unfold checkSlot at h
  split_ifs at h with h1 h2 h3
  injection h with hv
  push_neg at h2
  subst hv
  exact ⟨h2.1, h2.2, rfl, h3⟩

theorem checkSlot_block {d : String → String → ℕ} {x y : String}
    (h : checkSlot d x y = .block) :
    (¬(x = nan ∧ y = nan) ∧ (x = nan ∨ y = nan)) ∨
      (x ≠ nan ∧ y ≠ nan ∧ encLookup d x y = 0) := by
  unfold checkSlot at h
  split_ifs at h with h1 h2 h3
  · exact Or.inl ⟨h1, h2⟩
  · push_neg at h2
    exact Or.inr ⟨h2.1, h2.2, h3⟩

/-! ### Sentinel rows never connect (spec §3, §4.4) -/

theorem encLookup_nan_left (d : String → String → ℕ) (b : String) :
    encLookup d nan b = 0 := by
  unfold encLookup
  rw [if_pos (Or.inl rfl)]

theorem encLookup_nan_right (d : String → String → ℕ) (a : String) :
    encLookup d a nan = 0 := by
  unfold encLookup
  rw [if_pos (Or.inr rfl)]

theorem armDist_nan_left (di : DualIr) (d : String → String → ℕ)
    (p2 s2 : String) : armDist di d nan nan p2 s2 = 0 := by
  cases di with
  | primary_only => exact encLookup_nan_left d p2
  | any =>
    show armDistAny d nan nan p2 s2 = 0
    unfold armDistAny armPairingsAny
    simp [minOr0]
  | all =>
    show armDistAll d nan nan p2 s2 = 0
    have h1 : checkSlot d nan p2 = .skip ∨ checkSlot d nan p2 = .block := by
      unfold checkSlot
      by_cases h : p2 = nan
      · left
        rw [if_pos ⟨rfl, h⟩]
      · right
        rw [if_neg (by simpa using h), if_pos (Or.inl rfl)]
    have h2 : checkSlot d nan s2 = .skip ∨ checkSlot d nan s2 = .block := by
      unfold checkSlot
      by_cases h : s2 = nan
      · left
        rw [if_pos ⟨rfl, h⟩]
      · right
        rw [if_neg (by simpa using h), if_pos (Or.inl rfl)]
    unfold armDistAll
    rcases h1 with h1 | h1 <;> rcases h2 with h2 | h2 <;> rw [h1, h2]

theorem armDist_nan_right (di : DualIr) (d : String → String → ℕ)
    (p1 s1 : String) : armDist di d p1 s1 nan nan = 0 := by
  cases di with
  | primary_only => exact encLookup_nan_right d p1
  | any =>
    show armDistAny d p1 s1 nan nan = 0
    unfold armDistAny armPairingsAny
    simp [minOr0]
  | all =>
    show armDistAll d p1 s1 nan nan = 0
    have h1 : checkSlot d p1 nan = .skip ∨ checkSlot d p1 nan = .block := by
      unfold checkSlot
      by_cases h : p1 = nan
      · left
        rw [if_pos ⟨h, rfl⟩]
      · right
        rw [if_neg (by simpa using h), if_pos (Or.inr rfl)]
    have h2 : checkSlot d s1 nan = .skip ∨ checkSlot d s1 nan = .block := by
      unfold checkSlot
      by_cases h : s1 = nan
      · left
        rw [if_pos ⟨h, rfl⟩]
      · right
        rw [if_neg (by simpa using h), if_pos (Or.inr rfl)]
    unfold armDistAll
    rcases h1 with h1 | h1 <;> rcases h2 with h2 | h2 <;> rw [h1, h2]

theorem crossArm_zero (ra : ReceptorArms) : crossArm ra 0 0 = 0 := by
  cases ra <;> simp [crossArm]

theorem ctDist_nan_left (ra : ReceptorArms) (di : DualIr)
    (dvj dvdj : String → String → ℕ) {r1 : CTRow} (r2 : CTRow)
    (h : isNanRow r1) : ctDist ra di dvj dvdj r1 r2 = 0 := by
  obtain ⟨h1, h2, h3, h4⟩ := h
  unfold ctDist
  rw [h1, h2, h3, h4, armDist_nan_left, armDist_nan_left, crossArm_zero]

theorem ctDist_nan_right (ra : ReceptorArms) (di : DualIr)
    (dvj dvdj : String → String → ℕ) (r1 : CTRow) {r2 : CTRow}
    (h : isNanRow r2) : ctDist ra di dvj dvdj r1 r2 = 0 := by
  obtain ⟨h1, h2, h3, h4⟩ := h
  unfold ctDist
  rw [h1, h2, h3, h4, armDist_nan_right, armDist_nan_right, crossArm_zero]

/-! ### Symmetry of the combination engine -/

theorem encLookup_symm {d : String → String → ℕ} (hd : ∀ a b, d a b = d b a)
    (a b : String) : encLookup d a b = encLookup d b a := by
  unfold encLookup
  split_ifs with h1 h2 h3
  · rfl
  · exact absurd (Or.symm h1) h2
  · exact absurd (Or.symm h3) h1
  · exact hd a b

/-- The connected-pairing values of `dual_ir=any`, characterized by
membership. -/
theorem mem_connVals {d : String → String → ℕ} {p1 s1 p2 s2 : String} {x : ℕ} :
    x ∈ ((armPairingsAny p1 s1 p2 s2).map
        (fun pr => encLookup d pr.1 pr.2)).filter (· ≠ 0)
    ↔ x ≠ 0 ∧ ((p1 ≠ nan ∧ p2 ≠ nan ∧ encLookup d p1 p2 = x) ∨
               (p1 ≠ nan ∧ s2 ≠ nan ∧ encLookup d p1 s2 = x) ∨
               (s1 ≠ nan ∧ p2 ≠ nan ∧ encLookup d s1 p2 = x) ∨
               (s1 ≠ nan ∧ s2 ≠ nan ∧ encLookup d s1 s2 = x)) := by
  unfold armPairingsAny
  simp only [List.mem_filter, List.mem_map, List.mem_cons, List.not_mem_nil,
    or_false, List.mem_filter, decide_not]
  constructor
  · rintro ⟨⟨pr, ⟨hmem, hcond⟩, hval⟩, hx⟩
    simp only [decide_eq_true_eq] at hcond
    refine ⟨by simpa using hx, ?_⟩
    rcases hmem with rfl | rfl | rfl | rfl
    · exact Or.inl ⟨hcond.1, hcond.2, hval⟩
    · exact Or.inr (Or.inl ⟨hcond.1, hcond.2, hval⟩)
    · exact Or.inr (Or.inr (Or.inl ⟨hcond.1, hcond.2, hval⟩))
    · exact Or.inr (Or.inr (Or.inr ⟨hcond.1, hcond.2, hval⟩))
  · rintro ⟨hx, hcase⟩
    refine ⟨?_, by simpa using hx⟩
    rcases hcase with ⟨ha, hb, hv⟩ | ⟨ha, hb, hv⟩ | ⟨ha, hb, hv⟩ | ⟨ha, hb, hv⟩
    · exact ⟨(p1, p2), ⟨Or.inl rfl, by simp [ha, hb]⟩, hv⟩
    · exact ⟨(p1, s2), ⟨Or.inr (Or.inl rfl), by simp [ha, hb]⟩, hv⟩
    · exact ⟨(s1, p2), ⟨Or.inr (Or.inr (Or.inl rfl)), by simp [ha, hb]⟩, hv⟩
    · exact ⟨(s1, s2), ⟨Or.inr (Or.inr (Or.inr rfl)), by simp [ha, hb]⟩, hv⟩

/-- The filtered value list of `dual_ir=any` is the image of the
connected pairings. -/
theorem connVals_eq (d : String → String → ℕ) (p1 s1 p2 s2 : String) :
    ((armPairingsAny p1 s1 p2 s2).map
        (fun pr => encLookup d pr.1 pr.2)).filter (· ≠ 0)
    = (connPairingsAny d p1 s1 p2 s2).map
        (fun pr => encLookup d pr.1 pr.2) := by
  unfold connPairingsAny
  rw [List.filter_map]
  rfl

theorem armDistAny_symm {d : String → String → ℕ}
    (hd : ∀ a b, d a b = d b a) (p1 s1 p2 s2 : String) :
    armDistAny d p1 s1 p2 s2 = armDistAny d p2 s2 p1 s1 := by
  have e1 := encLookup_symm hd p2 p1
  have e2 := encLookup_symm hd p2 s1
  have e3 := encLookup_symm hd s2 p1
  have e4 := encLookup_symm hd s2 s1
  have hiff : ∀ x : ℕ,
      x ∈ ((armPairingsAny p1 s1 p2 s2).map
          (fun pr => encLookup d pr.1 pr.2)).filter (· ≠ 0)
      ↔ x ∈ ((armPairingsAny p2 s2 p1 s1).map
          (fun pr => encLookup d pr.1 pr.2)).filter (· ≠ 0) := by
    intro x
    rw [mem_connVals, mem_connVals, e1, e2, e3, e4]
    tauto
  unfold armDistAny
  by_cases h1 : ((armPairingsAny p1 s1 p2 s2).map
      (fun pr => encLookup d pr.1 pr.2)).filter (· ≠ 0) = []
  · have h2 : ((armPairingsAny p2 s2 p1 s1).map
        (fun pr => encLookup d pr.1 pr.2)).filter (· ≠ 0) = [] :=
      List.eq_nil_iff_forall_not_mem.2 (fun x hx =>
        (List.eq_nil_iff_forall_not_mem.1 h1 x) ((hiff x).2 hx))
    rw [h1, h2]
  · have h2 : ((armPairingsAny p2 s2 p1 s1).map
        (fun pr => encLookup d pr.1 pr.2)).filter (· ≠ 0) ≠ [] := by
      intro hc
      exact h1 (List.eq_nil_iff_forall_not_mem.2 (fun x hx =>
        (List.eq_nil_iff_forall_not_mem.1 hc x) ((hiff x).1 hx)))
    exact le_antisymm
      (minOr0_le ((hiff _).2 (minOr0_mem h2)))
      (minOr0_le ((hiff _).1 (minOr0_mem h1)))

theorem checkSlot_symm {d : String → String → ℕ}
    (hd : ∀ a b, d a b = d b a) (x y : String) :
    checkSlot d x y = checkSlot d y x := by
  unfold checkSlot
  rw [encLookup_symm hd x y]
  split_ifs <;> first | rfl | tauto

theorem armDistAll_symm {d : String → String → ℕ}
    (hd : ∀ a b, d a b = d b a) (p1 s1 p2 s2 : String) :
    armDistAll d p1 s1 p2 s2 = armDistAll d p2 s2 p1 s1 := by
  unfold armDistAll
  rw [checkSlot_symm hd p1 p2, checkSlot_symm hd s1 s2]

theorem armDist_symm (di : DualIr) {d : String → String → ℕ}
    (hd : ∀ a b, d a b = d b a) (p1 s1 p2 s2 : String) :
    armDist di d p1 s1 p2 s2 = armDist di d p2 s2 p1 s1 := by
  cases di with
  | primary_only => exact encLookup_symm hd p1 p2
  | any => exact armDistAny_symm hd p1 s1 p2 s2
  | all => exact armDistAll_symm hd p1 s1 p2 s2

theorem ctDist_symm (ra : ReceptorArms) (di : DualIr)
    {dvj dvdj : String → String → ℕ}
    (hvj : ∀ a b, dvj a b = dvj b a) (hvdj : ∀ a b, dvdj a b = dvdj b a)
    (r1 r2 : CTRow) :
    ctDist ra di dvj dvdj r1 r2 = ctDist ra di dvj dvdj r2 r1 := by
  unfold ctDist
  rw [armDist_symm di hvj, armDist_symm di hvdj]

/-! ### Counting partition for `clip_and_count` -/

theorem sum_map_add {γ} (L : List γ) (f g : γ → ℕ) :
    (L.map (fun x => f x + g x)).sum = (L.map f).sum + (L.map g).sum := by
  induction L with
  | nil => rfl
  | cons x xs ih =>
    simp only [List.map_cons, List.sum_cons, ih]
    omega

theorem sum_indicator_range' :
    ∀ (k s a : ℕ), s ≤ a → a < s + k →
      ((List.range' s k).map (fun n => if a = n then 1 else 0)).sum = 1 := by
  intro k
  induction k with
  | zero => intro s a h1 h2; omega
  | succ k ih =>
    intro s a h1 h2
    rw [List.range'_succ]
    simp only [List.map_cons, List.sum_cons]
    by_cases has : a = s
    · rw [if_pos has]
      have hz : ((List.range' (s + 1) k).map
          (fun n => if a = n then 1 else 0)).sum = 0 := by
        apply List.sum_eq_zero
        intro x hx
        rcases List.mem_map.1 hx with ⟨n, hn, rfl⟩
        have hb := List.mem_range'_1.1 hn
        rw [if_neg (by omega)]
      omega
    · rw [if_neg has, ih (s + 1) a (by omega) (by omega)]

theorem countP_partition (g : String) :
    ∀ (l : List (String × ℕ)) (k : ℕ),
      (∀ r ∈ l, r.1 = g → 1 ≤ r.2 ∧ r.2 ≤ k) →
      ((List.range' 1 k).map (fun n =>
          l.countP (fun r => r.1 = g ∧ r.2 = n))).sum
        = l.countP (fun r => r.1 = g) := by
  intro l
  induction l with
  | nil =>
    intro k _
    simp only [List.countP_nil]
    exact List.sum_eq_zero (by
      intro x hx
      rcases List.mem_map.1 hx with ⟨n, _, rfl⟩
      rfl)
  | cons r rs ih =>
    intro k h
    have hr := h r (List.mem_cons_self _ _)
    have hrs : ∀ x ∈ rs, x.1 = g → 1 ≤ x.2 ∧ x.2 ≤ k :=
      fun x hx => h x (List.mem_cons_of_mem _ hx)
    simp only [List.countP_cons]
    rw [sum_map_add (List.range' 1 k)
      (fun n => rs.countP (fun r => r.1 = g ∧ r.2 = n))
      (fun n => if (decide (r.1 = g ∧ r.2 = n)) = true then 1 else 0)]
    rw [ih k hrs]
    congr 1
    by_cases hg : r.1 = g
    · have he : ∀ n ∈ List.range' 1 k,
          (if (decide (r.1 = g ∧ r.2 = n)) = true then 1 else 0)
            = (if r.2 = n then 1 else 0) := by
        intro n _
        simp [hg]
      rw [List.map_congr_left he,
        sum_indicator_range' k 1 r.2 (hr hg).1 (by have := (hr hg).2; omega)]
      simp [hg]
    · have he : ∀ n ∈ List.range' 1 k,
          (if (decide (r.1 = g ∧ r.2 = n)) = true then 1 else 0) = 0 := by
        intro n _
        simp [hg]
      rw [List.map_congr_left he]
      rw [List.sum_eq_zero (fun x hx => by
        rcases List.mem_map.1 hx with ⟨n, _, rfl⟩
        rfl)]
      simp [hg]

theorem sum_map_divConst {γ} (L : List γ) (f : γ → ℕ) (q : ℚ) :
    (L.map (fun x => ((f x : ℕ) : ℚ) / q)).sum
      = (((L.map f).sum : ℕ) : ℚ) / q := by
  induction L with
  | nil => simp
  | cons x xs ih =>
    simp only [List.map_cons, List.sum_cons, ih]
    push_cast
    rw [add_div]

theorem clonotypeCounts_bounds (rows : List (String × Option String))
    (clip_at : ℕ) (hclip : 1 ≤ clip_at) :
    ∀ r ∈ clonotypeCounts rows clip_at, 1 ≤ r.2 ∧ r.2 ≤ clip_at := by
  intro r hr
  unfold clonotypeCounts at hr
  rcases List.mem_map.1 hr with ⟨k, hk, rfl⟩
  have hk' : k ∈ tcrObs rows := mem_firstUniq.1 hk
  have hc : 0 < (tcrObs rows).countP (fun r => r = k) :=
    List.countP_pos_iff.2 ⟨k, hk', by simp⟩
  dsimp only
  split_ifs with h
  · omega
  · omega

/-! ### Error taxonomy of `_dxx` -/

theorem dxxCount_no_valueError (t : ℚ) :
    ∀ (fs : List ℚ) (prop : ℚ) (i : ℕ) (msg : String),
      dxxCount t fs prop i ≠ .error (.valueError msg) := by
  intro fs
  induction fs with
  | nil =>
    intro prop i msg h
    unfold dxxCount at h
    split_ifs at h
    injection h with h'
    exact PErr.noConfusion h'
  | cons f rest ih =>
    intro prop i msg h
    unfold dxxCount at h
    split_ifs at h
    exact ih _ _ _ h

theorem dxx_no_valueError (counts : List ℕ) (p : ℤ) (msg : String) :
    dxx counts p ≠ .error (.valueError msg) := by
  intro h
  simp only [dxx] at h
  split_ifs at h with hs
  · rcases hm : dxxCount ((p : ℚ) / 100)
        ((counts.map (fun c => (c : ℚ) / ((counts.sum : ℕ) : ℚ))).insertionSort
          (· ≥ ·)) 0 0 with e | i
    · rw [hm] at h
      injection h with h'
      exact dxxCount_no_valueError _ _ _ _ msg (by rw [hm, h'])
    · rw [hm] at h
      injection h
  · injection h with h'
    exact PErr.noConfusion h'

/-! ### Min/max characterization of the per-arm policies -/

theorem armDistAll_spec (d : String → String → ℕ) (p1 s1 p2 s2 : String)
    (h : armDistAll d p1 s1 p2 s2 ≠ 0) :
    (∀ pr ∈ armPairingsAll p1 s1 p2 s2, encLookup d pr.1 pr.2 ≠ 0) ∧
    (∃ pr ∈ armPairingsAll p1 s1 p2 s2,
      armDistAll d p1 s1 p2 s2 = encLookup d pr.1 pr.2) ∧
    (∀ pr ∈ armPairingsAll p1 s1 p2 s2,
      encLookup d pr.1 pr.2 ≤ armDistAll d p1 s1 p2 s2) := by
  cases hc1 : checkSlot d p1 p2 with
  | skip =>
    cases hc2 : checkSlot d s1 s2 with
    | skip => exact absurd (by simp only [armDistAll, hc1, hc2]) h
    | block => exact absurd (by simp only [armDistAll, hc1, hc2]) h
    | conn w =>
      obtain ⟨hs1, hs2⟩ := checkSlot_skip hc1
      obtain ⟨hx, hy, henc, hw⟩ := checkSlot_conn hc2
      have harm : armDistAll d p1 s1 p2 s2 = w := by
        simp only [armDistAll, hc1, hc2]
      have hpairs : armPairingsAll p1 s1 p2 s2 = [(s1, s2)] := by
        unfold armPairingsAll
        rw [if_neg (by simp [hs1]), if_pos ⟨hx, hy⟩]
        rfl
      refine ⟨?_, ⟨(s1, s2), ?_, ?_⟩, ?_⟩
      · intro pr hpr
        rw [hpairs] at hpr
        have := List.mem_singleton.1 hpr
        subst this
        rw [henc]
        exact hw
      · rw [hpairs]
        exact List.mem_singleton.2 rfl
      · rw [harm, henc]
      · intro pr hpr
        rw [hpairs] at hpr
        have := List.mem_singleton.1 hpr
        subst this
        rw [harm, henc]
  | block => exact absurd (by simp only [armDistAll, hc1]) h
  | conn v =>
    cases hc2 : checkSlot d s1 s2 with
    | block => exact absurd (by simp only [armDistAll, hc1, hc2]) h
    | skip =>
      obtain ⟨hs1, hs2⟩ := checkSlot_skip hc2
      obtain ⟨hx, hy, henc, hv⟩ := checkSlot_conn hc1
      have harm : armDistAll d p1 s1 p2 s2 = v := by
        simp only [armDistAll, hc1, hc2]
      have hpairs : armPairingsAll p1 s1 p2 s2 = [(p1, p2)] := by
        unfold armPairingsAll
        rw [if_pos ⟨hx, hy⟩, if_neg (by simp [hs1])]
        rfl
      refine ⟨?_, ⟨(p1, p2), ?_, ?_⟩, ?_⟩
      · intro pr hpr
        rw [hpairs] at hpr
        have := List.mem_singleton.1 hpr
        subst this
        rw [henc]
        exact hv
      · rw [hpairs]
        exact List.mem_singleton.2 rfl
      · rw [harm, henc]
      · intro pr hpr
        rw [hpairs] at hpr
        have := List.mem_singleton.1 hpr
        subst this
        rw [harm, henc]
    | conn w =>
      obtain ⟨hx1, hy1, henc1, hv⟩ := checkSlot_conn hc1
      obtain ⟨hx2, hy2, henc2, hw⟩ := checkSlot_conn hc2
      have harm : armDistAll d p1 s1 p2 s2 = max v w := by
        simp only [armDistAll, hc1, hc2]
      have hpairs : armPairingsAll p1 s1 p2 s2 = [(p1, p2), (s1, s2)] := by
        unfold armPairingsAll
        rw [if_pos ⟨hx1, hy1⟩, if_pos ⟨hx2, hy2⟩]
        rfl
      refine ⟨?_, ?_, ?_⟩
      · intro pr hpr
        rw [hpairs] at hpr
        rcases List.mem_cons.1 hpr with h' | h'
        · subst h'
          rw [henc1]
          exact hv
        · have := List.mem_singleton.1 h'
          subst this
          rw [henc2]
          exact hw
      · rcases max_choice v w with hm | hm
        · exact ⟨(p1, p2), by rw [hpairs]; exact List.mem_cons_self _ _,
            by rw [harm, hm, henc1]⟩
        · exact ⟨(s1, s2), by
            rw [hpairs]
            exact List.mem_cons_of_mem _ (List.mem_singleton.2 rfl),
            by rw [harm, hm, henc2]⟩
      · intro pr hpr
        rw [hpairs] at hpr
        rcases List.mem_cons.1 hpr with h' | h'
        · subst h'
          rw [harm, henc1]
          exact le_max_left _ _
        · have := List.mem_singleton.1 h'
          subst this
          rw [harm, henc2]
          exact le_max_right _ _

theorem armDistAny_spec (d : String → String → ℕ) (p1 s1 p2 s2 : String) :
    (armDistAny d p1 s1 p2 s2 ≠ 0 →
      (∃ pr ∈ connPairingsAny d p1 s1 p2 s2,
        armDistAny d p1 s1 p2 s2 = encLookup d pr.1 pr.2) ∧
      (∀ pr ∈ connPairingsAny d p1 s1 p2 s2,
        armDistAny d p1 s1 p2 s2 ≤ encLookup d pr.1 pr.2))
    ∧ (connPairingsAny d p1 s1 p2 s2 = [] →
        armDistAny d p1 s1 p2 s2 = 0) := by
  constructor
  · intro h
    have hL : ((armPairingsAny p1 s1 p2 s2).map
        (fun pr => encLookup d pr.1 pr.2)).filter (· ≠ 0) ≠ [] := by
      intro hc
      apply h
      unfold armDistAny
      rw [hc]
      rfl
    have hmem : minOr0 (((armPairingsAny p1 s1 p2 s2).map
        (fun pr => encLookup d pr.1 pr.2)).filter (· ≠ 0))
        ∈ (connPairingsAny d p1 s1 p2 s2).map
          (fun pr => encLookup d pr.1 pr.2) := by
      rw [← connVals_eq]
      exact minOr0_mem hL
    constructor
    · rcases List.mem_map.1 hmem with ⟨pr, hpr, hval⟩
      exact ⟨pr, hpr, hval.symm⟩
    · intro pr hpr
      have hin : encLookup d pr.1 pr.2 ∈ ((armPairingsAny p1 s1 p2 s2).map
          (fun pr => encLookup d pr.1 pr.2)).filter (· ≠ 0) := by
        rw [connVals_eq]
        exact List.mem_map_of_mem _ hpr
      exact minOr0_le hin
  · intro hc
    unfold armDistAny
    rw [show ((armPairingsAny p1 s1 p2 s2).map
        (fun pr => encLookup d pr.1 pr.2)).filter (· ≠ 0) = [] from by
      rw [connVals_eq, hc]
      rfl]
    rfl

/-! ### Transpose of an elementwise matrix -/

theorem transpose_map_map {α β} (f : α → β → ℕ) (g : β → α → ℕ)
    (h : ∀ a b, f a b = g b a) (A : List α) (B : List β) :
    A.map (fun a => B.map (f a))
      = transposeLL (B.map (fun b => A.map (g b))) A.length := by
  apply List.ext_getElem
  · simp [transposeLL]
  · intro n h1 h2
    have hn : n < A.length := by simpa using h1
    rw [List.getElem_map]
    unfold transposeLL
    rw [List.getElem_map, List.getElem_range, List.map_map]
    apply List.map_congr_left
    intro b _
    simp only [Function.comp]
    rw [List.getD_eq_getElem _ _ (by simpa using hn), List.getElem_map]
    exact h _ b

/-- Symmetry of the identity metric's encoded entries. -/
theorem metricDist_identity_symm (c : ℕ) (a b : String) :
    metricDist .identity c a b = metricDist .identity c b a := by
  simp only [metricDist]
  by_cases h1 : a = nan ∨ b = nan
  · rw [if_pos h1, if_pos (Or.symm h1)]
  · rw [if_neg h1, if_neg (fun hc => h1 (Or.symm hc))]
    by_cases h2 : a = b
    · rw [if_pos h2, if_pos (Eq.symm h2)]
    · rw [if_neg h2, if_neg (fun hc => h2 (Eq.symm hc))]

/-- Symmetry of the mock identity pairwise function. -/
theorem dId_symm (a b : String) : dId a b = dId b a := by
  unfold dId
  split_ifs with h1 h2 h3
  · rfl
  · exact absurd h1.symm h2
  · exact absurd h3.symm h1
  · rfl

/-! ## Claim theorems -/

/-- Claim C9: for every counts vector of length exactly 1 with a positive
entry, `_shannon_entropy` returns 0 — the `len(freqs) == 1` branch is
taken explicitly (the positive entry makes the
`assert_almost_equal(sum(freqs), 1)` guard pass). -/
theorem claimC9_shannon_single (c : ℕ) (h : 0 < c) :
    shannon_entropy [c] = .ok 0 := by
  have hc : ((c : ℕ) : ℝ) ≠ 0 := Nat.cast_ne_zero.2 h.ne'
  have hsum : (([c] : List ℕ).map
      (fun x => (x : ℝ) / ((([c] : List ℕ).sum : ℕ) : ℝ))).sum = 1 := by
    simp [div_self hc]
  simp only [shannon_entropy]
  rw [if_pos hsum, if_pos (show ([c] : List ℕ).length = 1 from rfl)]

/-- Witness for C9 at the concrete counts vector `[5]`. -/
theorem claimC9_witness : shannon_entropy [5] = .ok 0 :=
  claimC9_shannon_single 5 (by norm_num)

/-- Claim C8, counterexample: called with `metric="DXX"`, no `percentage`
argument, and a dataset yielding no groups, `alpha_diversity` returns
normally instead of raising the `ValueError` — the raise sits inside the
per-group loop, so it is not reached when there is nothing to iterate
over.  This refutes "for every invocation ... fails immediately". -/
theorem claimC8_counterexample :
    alpha_diversity skbZero [] .DXX none = .ok [] := rfl

/-- Helper for C8: with `percentage` supplied, the `DXX` dispatch never
produces a `ValueError` (`_dxx` can only raise assertion/index errors). -/
theorem alphaGo_DXX_some_no_VE (skb : String → List ℕ → Except PErr ℝ)
    (p : ℤ) : ∀ groups : List (String × List ℕ),
      isValueError (alphaDiversityGo skb .DXX (some p) groups) = false := by
  intro groups
  induction groups with
  | nil => rfl
  | cons kc rest ih =>
    obtain ⟨k, counts⟩ := kc
    simp only [alphaDiversityGo, dispatchMetric]
    rcases hd : dxx counts p with e | q
    · simp only [hd]
      cases e with
      | valueError msg => exact absurd hd (dxx_no_valueError counts p msg)
      | assertionError => rfl
      | indexError => rfl
    · simp only [hd]
      rcases hr : alphaDiversityGo skb .DXX (some p) rest with e2 | tail
      · rw [hr] at ih
        simp only [hr]
        exact ih
      · simp only [hr]
        rfl

/-- Claim C8 (amended): `alpha_diversity` with `metric="DXX"` and no
`percentage` raises `ValueError` whenever at least one group is processed
(the raise happens at the first group, before any further work); with no
groups the call returns normally; when `percentage` is supplied, no
`ValueError` is ever raised. -/
theorem claimC8_dxx_valueError (skb : String → List ℕ → Except PErr ℝ)
    (groups : List (String × List ℕ)) (p : ℤ) :
    (groups ≠ [] →
      isValueError (alpha_diversity skb groups .DXX none) = true)
    ∧ isValueError (alpha_diversity skb groups .DXX (some p)) = false := by
  constructor
  · intro h
    cases groups with
    | nil => exact absurd rfl h
    | cons kc rest =>
      obtain ⟨k, counts⟩ := kc
      rfl
  · exact alphaGo_DXX_some_no_VE skb p groups

/-- Witness for C8 (amended) at a concrete one-group dataset. -/
theorem claimC8_witness :
    isValueError (alpha_diversity skbZero [("a", [3])] .DXX none) = true :=
  (claimC8_dxx_valueError skbZero [("a", [3])] 50).1 (by simp)

/-- Claim C10: with `fraction=True` and `clip_at ≥ 1`, for every group
appearing in the result of `clip_and_count`, the per-label fractions of
that group sum to exactly 1 — clipping maps every clonotype abundance into
exactly one of the labels `1, ..., ">= clip_at"`. -/
theorem claimC10_fractions_sum_one (rows : List (String × Option String))
    (clip_at : ℕ) (hclip : 1 ≤ clip_at) (g : String)
    (ls : List (String × ℚ))
    (hmem : (g, ls) ∈ clip_and_count rows clip_at true) :
    (ls.map Prod.snd).sum = 1 := by
  unfold clip_and_count at hmem
  rcases List.mem_map.1 hmem with ⟨g', hg', heq⟩
  rw [Prod.mk.injEq] at heq
  obtain ⟨rfl, rfl⟩ := heq
  have hN : 0 < (clonotypeCounts rows clip_at).countP (fun r => r.1 = g') := by
    have hg'' : g' ∈ (clonotypeCounts rows clip_at).map (·.1) :=
      mem_firstUniq.1 hg'
    rcases List.mem_map.1 hg'' with ⟨r, hr, hfst⟩
    exact List.countP_pos_iff.2 ⟨r, hr, by simp [hfst]⟩
  rw [List.map_map]
  have hmapped : ((List.range' 1 clip_at).map (Prod.snd ∘ fun n =>
      ((if n = clip_at then ">= " ++ toString n else toString n : String),
        if true then
          (((clonotypeCounts rows clip_at).countP
              (fun r => r.1 = g' ∧ r.2 = n) : ℕ) : ℚ)
            / (((clonotypeCounts rows clip_at).countP
                (fun r => r.1 = g') : ℕ) : ℚ)
        else (((clonotypeCounts rows clip_at).countP
            (fun r => r.1 = g' ∧ r.2 = n) : ℕ) : ℚ))))
      = ((List.range' 1 clip_at).map (fun n =>
          (((clonotypeCounts rows clip_at).countP
              (fun r => r.1 = g' ∧ r.2 = n) : ℕ) : ℚ)
            / (((clonotypeCounts rows clip_at).countP
                (fun r => r.1 = g') : ℕ) : ℚ))) := by
    apply List.map_congr_left
    intro n _
    simp
  rw [hmapped, sum_map_divConst, countP_partition g'
    (clonotypeCounts rows clip_at) clip_at
    (fun r hr _ => clonotypeCounts_bounds rows clip_at hclip r hr)]
  exact div_self (Nat.cast_ne_zero.2 hN.ne')

/-- Witness for C10 at a concrete table: group "a" has clonotypes `x`
(abundance 2, clipped label ">= 2") and `y` (abundance 1, label "1"), so
the fractions are 1/2 and 1/2 and sum to 1. -/
theorem claimC10_witness :
    (([((("1" : String), ((1 : ℕ) : ℚ) / ((2 : ℕ) : ℚ))),
       ((">= 2" : String), ((1 : ℕ) : ℚ) / ((2 : ℕ) : ℚ))].map
      Prod.snd).sum = 1) :=
  claimC10_fractions_sum_one
    [("a", some "x"), ("a", some "x"), ("a", some "y"), ("b", some "z")]
    2 (by norm_num) "a"
    [(("1" : String), ((1 : ℕ) : ℚ) / ((2 : ℕ) : ℚ)),
     ((">= 2" : String), ((1 : ℕ) : ℚ) / ((2 : ℕ) : ℚ))]
    (List.mem_cons_self _ _)

/-- Claim C1, counterexample: with the identity metric
(`test_compute_distances`, first case), the clonotype pair `(0,0)` —
`AAA` against itself — is connected with encoded per-chain distance 1
(true distance 0), and `compute_distances` stores 1, not the decoded
`1 - 1 = 0` the claim asserts; decoding would collide with the 0 = "not
connected" fill, as the expected matrix `[[1,0,0],[0,1,0],[0,0,0]]` of the
test shows. -/
theorem claimC1_counterexample :
    entryAt (compute_distances .VJ .primary_only dId dId ctPrim ctPrim) 0 0 = 1
    ∧ encLookup dId "AAA" "AAA" - 1 = 0
    ∧ (1 : ℕ) ≠ 0 := by decide

/-- Claim C1 (amended): the final matrix of `compute_distances` is
offset-encoded like the per-chain matrices — under
`dual_ir=primary_only` (single arm VJ) the stored value for a clonotype
pair is exactly the encoded per-chain distance of the primary sequences
(true distance + 1 when connected), with 0 reserved for "not
connected". -/
theorem claimC1_primary_only_encoded (dvj dvdj : String → String → ℕ)
    (ct1 ct2 : List CTRow) (i j : ℕ)
    (hi : i < ct1.length) (hj : j < ct2.length) :
    entryAt (compute_distances .VJ .primary_only dvj dvdj ct1 ct2) i j
      = encLookup dvj (ct1.get ⟨i, hi⟩).vj1 (ct2.get ⟨j, hj⟩).vj1 := by
  show entryAt (ct1.map (fun r1 => ct2.map
    (fun r2 => ctDist .VJ .primary_only dvj dvdj r1 r2))) i j = _
  rw [entryAt_map_map (fun r1 r2 => ctDist .VJ .primary_only dvj dvdj r1 r2)
    ct1 ct2 i j hi hj]
  rfl

/-- Witness for C1 (amended) at the identity test fixture. -/
theorem claimC1_witness :
    entryAt (compute_distances .VJ .primary_only dId dId ctPrim ctPrim) 0 0
      = encLookup dId "AAA" "AAA" :=
  claimC1_primary_only_encoded dId dId ctPrim ctPrim 0 0 (by decide) (by decide)

/-- Claim C2, counterexample: `dual_ir=all` on the VJ arm for rows
`(AAA, AHA)` vs `(AAA, AAA)` of the dual-chain test fixture: both slot
pairings are connected with encoded values 1 and 4 (true distances 0 and
3), the stored arm value is 4 (the test expects 4), but the maximum true
distance over the jointly-present pairings is 3 — the stored value is the
max of the encoded values, i.e. 1 + the max true distance, not the max
true distance itself. -/
theorem claimC2_counterexample :
    armDist .all dMock "AAA" "AHA" "AAA" "AAA" = 4
    ∧ ((armPairingsAll "AAA" "AHA" "AAA" "AAA").map
        (fun pr => encLookup dMock pr.1 pr.2 - 1)).foldl max 0 = 3
    ∧ (4 : ℕ) ≠ 3 := by decide

/-- Claim C2 (amended): for a pair connected on an arm, the
`dual_ir=all` arm value is the maximum of the encoded distances (1 + max
true distance) over the slot pairings present on both sides
(primary–primary and secondary–secondary only), each of which must itself
be connected; the `dual_ir=any` arm value is the minimum of the encoded
distances (1 + min true distance) over the valid (non-sentinel,
connected) slot pairings; and with no valid connected pairing the arm is
unconnected (0).  Maxima/minima are characterized as attained bounds. -/
theorem claimC2_arm_minmax (d : String → String → ℕ) (p1 s1 p2 s2 : String) :
    (armDist .all d p1 s1 p2 s2 ≠ 0 →
      (∀ pr ∈ armPairingsAll p1 s1 p2 s2, encLookup d pr.1 pr.2 ≠ 0) ∧
      (∃ pr ∈ armPairingsAll p1 s1 p2 s2,
        armDist .all d p1 s1 p2 s2 = encLookup d pr.1 pr.2) ∧
      (∀ pr ∈ armPairingsAll p1 s1 p2 s2,
        encLookup d pr.1 pr.2 ≤ armDist .all d p1 s1 p2 s2))
    ∧ (armDist .any d p1 s1 p2 s2 ≠ 0 →
      (∃ pr ∈ connPairingsAny d p1 s1 p2 s2,
        armDist .any d p1 s1 p2 s2 = encLookup d pr.1 pr.2) ∧
      (∀ pr ∈ connPairingsAny d p1 s1 p2 s2,
        armDist .any d p1 s1 p2 s2 ≤ encLookup d pr.1 pr.2))
    ∧ (connPairingsAny d p1 s1 p2 s2 = [] →
        armDist .any d p1 s1 p2 s2 = 0) :=
  ⟨fun h => armDistAll_spec d p1 s1 p2 s2 h,
   (armDistAny_spec d p1 s1 p2 s2).1,
   (armDistAny_spec d p1 s1 p2 s2).2⟩

/-- Witness for C2 (amended): the mock-metric pair of the counterexample,
where the theorem yields an attained pairing for the stored value 4. -/
theorem claimC2_witness :
    ∃ pr ∈ armPairingsAll "AAA" "AHA" "AAA" "AAA",
      armDist .all dMock "AAA" "AHA" "AAA" "AAA" = encLookup dMock pr.1 pr.2 :=
  (((claimC2_arm_minmax dMock "AAA" "AHA" "AAA" "AAA").1 (by decide)).2).1

/-- Claim C3: chunked/parallel evaluation is bit-for-bit identical to the
sequential evaluation — for every chunksize and every worker arrival
order covering all blocks (which subsumes `n_jobs ∈ {1,2}`), both
`sequence_dist` and `compute_distances` assemble blocks by block index,
so the result equals the sequential row map. -/
theorem claimC3_chunk_invariance (m : Metric) (cutoff : ℕ)
    (seqs seqs2 : List String) (cs1 : ℕ) (perm1 : List ℕ)
    (ra : ReceptorArms) (di : DualIr) (dvj dvdj : String → String → ℕ)
    (ct1 ct2 : List CTRow) (cs2 : ℕ) (perm2 : List ℕ)
    (h1 : ∀ i, i < (chunkList cs1 seqs).length → i ∈ perm1)
    (h2 : ∀ i, i < (chunkList cs2 ct1).length → i ∈ perm2) :
    sequence_dist_par m cutoff seqs seqs2 cs1 perm1
      = sequence_dist m cutoff seqs seqs2
    ∧ compute_distances_par ra di dvj dvdj ct1 ct2 cs2 perm2
      = compute_distances ra di dvj dvdj ct1 ct2 :=
  ⟨parAssemble_eq cs1 perm1 seqs (sequence_dist_row m cutoff seqs seqs2) h1,
   parAssemble_eq cs2 perm2 ct1 (compute_distances_row ra di dvj dvdj ct2) h2⟩

/-- Witness for C3: chunksize 1 with out-of-order arrival `[1, 0]` for the
sequence matrix, and chunksize 2 with arrival `[1, 0]` for the clonotype
matrix. -/
theorem claimC3_witness :
    sequence_dist_par .levenshtein 10 ["AAA", "ARA"] ["AAA"] 1 [1, 0]
      = sequence_dist .levenshtein 10 ["AAA", "ARA"] ["AAA"]
    ∧ compute_distances_par .VJ .primary_only dId dId ctPrim ctPrim 2 [1, 0]
      = compute_distances .VJ .primary_only dId dId ctPrim ctPrim :=
  claimC3_chunk_invariance .levenshtein 10 ["AAA", "ARA"] ["AAA"] 1 [1, 0]
    .VJ .primary_only dId dId ctPrim ctPrim 2 [1, 0] (by decide) (by decide)

/-- Claim C4: for every symmetric metric (the calculator contract of spec
§4.1 requires `calc_dist_mat(A,B)` transposed to equal
`calc_dist_mat(B,A)`), `sequence_dist(A,B)` equals the transpose of
`sequence_dist(B,A)`; and for symmetric per-locus lookups,
`ClonotypeNeighbors(query, ref).compute_distances()` equals the transpose
of `ClonotypeNeighbors(ref, query).compute_distances()` (swapping the
datasets swaps the two clonotype tables). -/
theorem claimC4_transpose (m : Metric) (cutoff : ℕ) (A B : List String)
    (ra : ReceptorArms) (di : DualIr) (dvj dvdj : String → String → ℕ)
    (ct1 ct2 : List CTRow)
    (hm : ∀ a b, metricDist m cutoff a b = metricDist m cutoff b a)
    (hvj : ∀ a b, dvj a b = dvj b a) (hvdj : ∀ a b, dvdj a b = dvdj b a) :
    sequence_dist m cutoff A B
      = transposeLL (sequence_dist m cutoff B A) A.length
    ∧ compute_distances ra di dvj dvdj ct1 ct2
      = transposeLL (compute_distances ra di dvj dvdj ct2 ct1) ct1.length := by
  constructor
  · rw [sequence_dist_eq m cutoff A B, sequence_dist_eq m cutoff B A]
    exact transpose_map_map (metricDist m cutoff) (metricDist m cutoff) hm A B
  · show ct1.map (fun r1 => ct2.map (fun r2 => ctDist ra di dvj dvdj r1 r2))
      = transposeLL (ct2.map (fun r2 => ct1.map
          (fun r1 => ctDist ra di dvj dvdj r2 r1))) ct1.length
    exact transpose_map_map (ctDist ra di dvj dvdj) (ctDist ra di dvj dvdj)
      (fun r1 r2 => ctDist_symm ra di hvj hvdj r1 r2) ct1 ct2

/-- Witness for C4 at the identity metric and the identity pairwise
lookup over the test fixture tables. -/
theorem claimC4_witness :
    sequence_dist .identity 0 ["AAA", "ARA"] ["AAA"]
      = transposeLL (sequence_dist .identity 0 ["AAA"] ["AAA", "ARA"]) 2
    ∧ compute_distances .VJ .any dId dId ctPrim ctDual
      = transposeLL (compute_distances .VJ .any dId dId ctDual ctPrim) 3 :=
  claimC4_transpose .identity 0 ["AAA", "ARA"] ["AAA"] .VJ .any dId dId
    ctPrim ctDual (metricDist_identity_symm 0) dId_symm dId_symm

/-- Claim C5: a clonotype row that is entirely the missing sentinel never
connects to anything — for every configuration and distance lookup, its
entire row (and, when it occurs in the second table, its entire column,
diagonal included) of the final matrix is 0. -/
theorem claimC5_sentinel_rows (ra : ReceptorArms) (di : DualIr)
    (dvj dvdj : String → String → ℕ) (ct1 ct2 : List CTRow) :
    (∀ i, i < ct1.length → isNanRow (ct1.getD i nanRow) →
      ∀ j, entryAt (compute_distances ra di dvj dvdj ct1 ct2) i j = 0)
    ∧ (∀ j, j < ct2.length → isNanRow (ct2.getD j nanRow) →
      ∀ i, entryAt (compute_distances ra di dvj dvdj ct1 ct2) i j = 0) := by
  have hrow : ∀ i, i < ct1.length →
      (compute_distances ra di dvj dvdj ct1 ct2).getD i []
        = compute_distances_row ra di dvj dvdj ct2 (ct1.getD i nanRow) := by
    intro i hi
    unfold compute_distances
    rw [List.getD_eq_getElem _ _ (by simpa using hi), List.getElem_map,
      List.getD_eq_getElem _ _ hi]
  constructor
  · intro i hi hnan j
    unfold entryAt
    rw [hrow i hi]
    unfold compute_distances_row
    exact getD_map_zero _ _
      (fun r2 _ => ctDist_nan_left ra di dvj dvdj r2 hnan) j
  · intro j hj hnan i
    unfold entryAt
    by_cases hi : i < ct1.length
    · rw [hrow i hi]
      unfold compute_distances_row
      rw [List.getD_eq_getElem _ _ (by simpa using hj), List.getElem_map]
      exact ctDist_nan_right ra di dvj dvdj _
        (by rwa [List.getD_eq_getElem _ _ hj] at hnan)
    · have houter : (compute_distances ra di dvj dvdj ct1 ct2).getD i [] = [] :=
        List.getD_eq_default _ _ (by
          simpa [compute_distances] using Nat.le_of_not_lt hi)
      rw [houter]
      rfl

/-- Witness for C5: row 2 of the identity test fixture is the all-`nan`
row; its row and diagonal entries are 0. -/
theorem claimC5_witness :
    entryAt (compute_distances .VJ .primary_only dId dId ctPrim ctPrim) 2 2 = 0 :=
  (claimC5_sentinel_rows .VJ .primary_only dId dId ctPrim ctPrim).1
    2 (by decide) (by decide) 2

/-- Claim C6: `ClonotypeNeighbors` construction fails (ValueError) exactly
when a supplied dataset has no receptor-bearing cell at all; a nonempty
dataset of receptor-bearing cells that all lack the requested chain
sequences — every slot selected by the `receptor_arms`/`dual_ir`
configuration is missing, i.e. each cell's `cellRow` is the all-sentinel
row, regardless of chains in unrequested slots — is handled gracefully:
the clonotype table collapses to the single all-missing row and the
resulting distance matrix is all-zero. -/
theorem claimC6_construction (ra : ReceptorArms) (di : DualIr)
    (ds1 ds2 : List Cell) (dvj dvdj : String → String → ℕ) :
    (isOkE (mkClonotypeNeighbors ra di ds1 ds2) = false ↔
      ds1.filter (fun c => c.has_ir) = [] ∨ ds2.filter (fun c => c.has_ir) = [])
    ∧ (ds1 ≠ [] →
      (∀ c ∈ ds1, c.has_ir = true ∧ cellRow ra di c = nanRow) →
      buildClonotypes ra di ds1 = .ok [nanRow]
        ∧ compute_distances ra di dvj dvdj [nanRow] [nanRow] = [[0]]) := by
  constructor
  · by_cases he1 : ds1.filter (fun c => c.has_ir) = [] <;>
      by_cases he2 : ds2.filter (fun c => c.has_ir) = [] <;>
      simp [mkClonotypeNeighbors, buildClonotypes, he1, he2, isOkE]
  · intro hne hall
    have hfilter : ds1.filter (fun c => c.has_ir) = ds1 :=
      List.filter_eq_self.2 (fun c hc => by simp [(hall c hc).1])
    constructor
    · unfold buildClonotypes
      rw [hfilter, if_neg hne]
      congr 1
      apply firstUniq_const (by simpa using hne)
      intro x hx
      rcases List.mem_map.1 hx with ⟨c, hc, rfl⟩
      exact (hall c hc).2
    · unfold compute_distances compute_distances_row
      simp only [List.map_cons, List.map_nil]
      rw [ctDist_nan_left ra di dvj dvdj nanRow ⟨rfl, rfl, rfl, rfl⟩]

/-- Witness for C6: the `test_compute_distances_no_dist` scenario — a
one-cell dataset bearing a receptor whose requested (primary) chain
sequences are NaN while its secondary chains are still present; under
`dual_ir=primary_only` the requested slots are all missing, so the
clonotype table collapses to the single all-missing row and the distance
matrix is the 1×1 zero matrix. -/
theorem claimC6_witness :
    buildClonotypes .all .primary_only
        [⟨true, none, some "AHA", none, some "KKK"⟩] = .ok [nanRow]
    ∧ compute_distances .all .primary_only dId dId [nanRow] [nanRow] = [[0]] :=
  (claimC6_construction .all .primary_only
    [⟨true, none, some "AHA", none, some "KKK"⟩]
    [⟨true, none, some "AHA", none, some "KKK"⟩]
    dId dId).2 (by decide) (by decide)

/-- Claim C7: for every pair of sequences within cutoff under the
levenshtein metric, the encoded matrix of `sequence_dist` stores
true distance + 1; 0 is reserved for "no edge" (sentinel operand or
distance beyond cutoff). -/
theorem claimC7_levenshtein_encoding (cutoff : ℕ) (seqs seqs2 : List String)
    (i j : ℕ) (hi : i < seqs.length) (hj : j < seqs2.length) :
    (seqs.get ⟨i, hi⟩ ≠ nan → seqs2.get ⟨j, hj⟩ ≠ nan →
      levenshtein (seqs.get ⟨i, hi⟩) (seqs2.get ⟨j, hj⟩) ≤ cutoff →
      entryAt (sequence_dist .levenshtein cutoff seqs seqs2) i j
        = levenshtein (seqs.get ⟨i, hi⟩) (seqs2.get ⟨j, hj⟩) + 1)
    ∧ ((seqs.get ⟨i, hi⟩ = nan ∨ seqs2.get ⟨j, hj⟩ = nan ∨
        cutoff < levenshtein (seqs.get ⟨i, hi⟩) (seqs2.get ⟨j, hj⟩)) →
      entryAt (sequence_dist .levenshtein cutoff seqs seqs2) i j = 0) := by
  have hentry : entryAt (sequence_dist .levenshtein cutoff seqs seqs2) i j
      = metricDist .levenshtein cutoff (seqs.get ⟨i, hi⟩) (seqs2.get ⟨j, hj⟩) := by
    rw [sequence_dist_eq]
    exact entryAt_map_map _ seqs seqs2 i j hi hj
  constructor
  · intro h1 h2 h3
    rw [hentry]
    simp only [metricDist]
    rw [if_neg (by tauto), if_pos h3]
  · intro hc
    rw [hentry]
    simp only [metricDist]
    rcases hc with hc | hc | hc
    · rw [if_pos (Or.inl hc)]
    · rw [if_pos (Or.inr hc)]
    · by_cases hs : seqs.get ⟨i, hi⟩ = nan ∨ seqs2.get ⟨j, hj⟩ = nan
      · rw [if_pos hs]
      · rw [if_neg hs, if_neg (by omega)]

/-- Witness for C7: the spec's example — levenshtein, cutoff 10,
`AAA` vs `ARA`: true distance 1, stored value 2. -/
theorem claimC7_witness :
    entryAt (sequence_dist .levenshtein 10 ["AAA", "ARA"] ["AAA", "ARA"]) 0 1 = 2
    ∧ levenshtein "AAA" "ARA" = 1 := by
  have h := (claimC7_levenshtein_encoding 10 ["AAA", "ARA"] ["AAA", "ARA"]
    0 1 (by decide) (by decide)).1 (by decide) (by decide) (by decide)
  rw [h]
  exact ⟨by decide, by decide⟩

/-! ## Validation against `scirpy/tests/test_ir_dist.py`

The model reproduces, entry for entry, the expected matrices hard-coded
in the repository's test suite (the in-tree authority for the engine's
behaviour). -/

/-- `test_sequence_dist`, identity metric, cutoff 0, self-distance. -/
theorem validate_sequence_dist_identity :
    sequence_dist .identity 0 ["AAA", "ARA", "FFA", "FFA", "AAA"]
        ["AAA", "ARA", "FFA", "FFA", "AAA"]
      = [[1, 0, 0, 0, 1], [0, 1, 0, 0, 0], [0, 0, 1, 1, 0],
         [0, 0, 1, 1, 0], [1, 0, 0, 0, 1]] := by decide

/-- `test_sequence_dist`, levenshtein metric, cutoff 10, self-distance. -/
theorem validate_sequence_dist_levenshtein :
    sequence_dist .levenshtein 10 ["AAA", "ARA", "FFA", "FFA", "AAA"]
        ["AAA", "ARA", "FFA", "FFA", "AAA"]
      = [[1, 2, 3, 3, 1], [2, 1, 3, 3, 2], [3, 3, 1, 1, 3],
         [3, 3, 1, 1, 3], [1, 2, 3, 3, 1]] := by decide

/-- `test_sequence_dist`, levenshtein metric, cutoff 10, rectangular, and
its transposed call. -/
theorem validate_sequence_dist_levenshtein_rect :
    sequence_dist .levenshtein 10 ["AAA", "ARA", "FFA", "FFA", "AAA"]
        ["ARA", "CAC", "AAA", "CAC"]
      = [[2, 3, 1, 3], [1, 4, 2, 4], [3, 4, 3, 4], [3, 4, 3, 4], [2, 3, 1, 3]]
    ∧ sequence_dist .levenshtein 10 ["ARA", "CAC", "AAA", "CAC"]
        ["AAA", "ARA", "FFA", "FFA", "AAA"]
      = transposeLL [[2, 3, 1, 3], [1, 4, 2, 4], [3, 4, 3, 4], [3, 4, 3, 4],
          [2, 3, 1, 3]] 4 := by decide

/-- `test_compute_distances`, identity metric, `receptor_arms=VJ`,
`dual_ir=primary_only`. -/
theorem validate_cd_vj_primary_identity :
    compute_distances .VJ .primary_only dId dId ctPrim ctPrim
      = [[1, 0, 0], [0, 1, 0], [0, 0, 0]] := by decide

/-- `test_compute_distances`, identity metric, `receptor_arms=VJ`,
`dual_ir=any`. -/
theorem validate_cd_vj_any_identity :
    compute_distances .VJ .any dId dId ctDual ctDual
      = [[1, 1, 0, 1, 1], [1, 1, 0, 0, 0], [0, 0, 0, 0, 0],
         [1, 0, 0, 1, 1], [1, 0, 0, 1, 1]] := by decide

/-- `test_compute_distances`, mock metric, `receptor_arms=VJ`,
`dual_ir=primary_only`. -/
theorem validate_cd_vj_primary_custom :
    compute_distances .VJ .primary_only dMock dMock ctPrim ctPrim
      = [[1, 4, 0], [4, 1, 0], [0, 0, 0]] := by decide

/-- `test_compute_distances`, mock metric, `receptor_arms=VJ`,
`dual_ir=any`. -/
theorem validate_cd_vj_any_custom :
    compute_distances .VJ .any dMock dMock ctDual ctDual
      = [[1, 1, 0, 1, 1], [1, 1, 0, 4, 4], [0, 0, 0, 0, 0],
         [1, 4, 0, 1, 1], [1, 4, 0, 1, 1]] := by decide

/-- `test_compute_distances`, mock metric, `receptor_arms=VJ`,
`dual_ir=all`. -/
theorem validate_cd_vj_all_custom :
    compute_distances .VJ .all dMock dMock ctDual ctDual
      = [[1, 0, 0, 4, 0], [0, 1, 0, 0, 4], [0, 0, 0, 0, 0],
         [4, 0, 0, 1, 0], [0, 4, 0, 0, 1]] := by decide

/-- `test_compute_distances`, mock metric, `receptor_arms=all`,
`dual_ir=primary_only`. -/
theorem validate_cd_all_primary_custom :
    compute_distances .all .primary_only dMock dMock ctArm ctArm
      = [[1, 10, 0, 0], [10, 1, 0, 0], [0, 0, 0, 0], [0, 0, 0, 1]] := by decide

/-- `test_compute_distances`, mock metric, `receptor_arms=any`,
`dual_ir=primary_only`. -/
theorem validate_cd_any_primary_custom :
    compute_distances .any .primary_only dMock dMock ctArm ctArm
      = [[1, 4, 0, 1], [4, 1, 0, 4], [0, 0, 0, 0], [1, 4, 0, 1]] := by decide

/-- `test_compute_distances`, mock metric, `receptor_arms=any`,
`dual_ir=all`. -/
theorem validate_cd_any_all_custom :
    compute_distances .any .all dMock dMock ctBoth ctBoth
      = [[1, 10, 0, 4, 0], [10, 1, 0, 0, 4], [0, 0, 0, 0, 0],
         [4, 0, 0, 1, 0], [0, 4, 0, 0, 1]] := by decide

/-- `test_compute_distances`, mock metric, `receptor_arms=any`,
`dual_ir=any`. -/
theorem validate_cd_any_any_custom :
    compute_distances .any .any dMock dMock ctBoth ctBoth
      = [[1, 1, 0, 1, 1], [1, 1, 0, 4, 4], [0, 0, 0, 0, 0],
         [1, 4, 0, 1, 1], [1, 4, 0, 1, 1]] := by decide

/-- `test_compute_distances`, mock metric, `receptor_arms=all`,
`dual_ir=any`. -/
theorem validate_cd_all_any_custom :
    compute_distances .all .any dMock dMock ctBoth ctBoth
      = [[1, 1, 0, 0, 0], [1, 1, 0, 0, 0], [0, 0, 0, 0, 0],
         [0, 0, 0, 1, 1], [0, 0, 0, 1, 1]] := by decide

/-- `test_compute_distances`, mock metric, `receptor_arms=all`,
`dual_ir=all`. -/
theorem validate_cd_all_all_custom :
    compute_distances .all .all dMock dMock ctBoth ctBoth
      = [[1, 0, 0, 0, 0], [0, 1, 0, 0, 0], [0, 0, 0, 0, 0],
         [0, 0, 0, 1, 0], [0, 0, 0, 0, 1]] := by decide

/-- `test_compute_distances_second_anndata`, identity metric,
`receptor_arms=all`, `dual_ir=primary_only`, two different clonotype
tables. -/
theorem validate_cd_second_anndata :
    compute_distances .all .primary_only dId dId ctArm
        [rPrim "AAA" "KKK", rPrim "AAA" "LLL", rPrim nan "LLL"]
      = [[0, 0, 0], [0, 0, 0], [0, 0, 0], [0, 1, 0]] := by decide

end Scirpy
